import Mathlib

/-!
Verification development for the compiler core of the stk scripting language
(crates/rune/src/compiler.rs and crates/rune/src/ast/file.rs), shallowly
embedded in Lean.  Machine words and hashes are modelled as natural numbers,
source spans as opaque natural identifiers, and the fallible Rust functions
as computations in the Except monad.  Side effects that do not influence any
verified property (trace logging, the compile visitor, instruction comments)
are dropped; each dropped effect is noted at the definition it concerns.
-/

/-- A source span.  Spans are only ever threaded through and compared for
identity by the properties below, so an opaque identifier suffices. -/
abbrev Span := Nat

/-- A type hash (runestick Hash). -/
abbrev Hash := Nat

/-- An assembly label, identified by its index. -/
abbrev Label := Nat

/-- An item path: the ordered list of component names (runestick Item). -/
abbrev Item := List String

/-- Modelled from the spec: runestick Item.as_local, which returns the single
identifier of a one-component path and nothing otherwise (the item source is
not among the provided files; the spec describes paths that "must be a single
identifier" for local bindings). -/
def Item.as_local : Item → Option String
  | [s] => some s
  | _ => none

/-- The discriminant used by the virtual machine to test the shape of a value
during pattern matching (runestick TypeCheck, listed in the spec glossary). -/
inductive TypeCheck where
  | unit
  | tuple
  | object
  | vec
  | type (hash : Hash)
  | variant (hash : Hash)
deriving DecidableEq, Repr

/-- Tuple payload of a compile meta (CompileMetaTuple): the constructor item,
its function hash and declared arity. -/
structure CompileMetaTuple where
  item : Item
  hash : Hash
  args : Nat
deriving DecidableEq, Repr

/-- Record payload of a compile meta (CompileMetaStruct): the item and the
optional known field set. -/
structure CompileMetaStruct where
  item : Item
  fields : Option (List String)
deriving DecidableEq, Repr

/-- The kind of a resolved compile meta.  The first five variants are the ones
the data model of the spec lists and compiler.rs destructures; `other` is
modelled from the spec: the source enum (not among the provided files) has
further kinds - reached by the catch-all arms of compile_meta and
compile_pat_tuple - whose type_of projection may be absent, which the spec
acknowledges by making type_of an invariant only "for any meta that can appear
in a match position". -/
inductive CompileMetaKind where
  | tuple (type_of : Hash) (tuple : CompileMetaTuple)
  | tupleVariant (type_of : Hash) (enum_item : Item) (tuple : CompileMetaTuple)
  | struct (type_of : Hash) (object : CompileMetaStruct)
  | structVariant (type_of : Hash) (enum_item : Item) (object : CompileMetaStruct)
  | function (type_of : Hash) (item : Item)
  | other (item : Item) (type_of : Option Hash)
deriving DecidableEq, Repr

/-- A resolved compile meta (runestick CompileMeta). -/
structure CompileMeta where
  kind : CompileMetaKind
deriving DecidableEq, Repr

/-- The type_of projection of a compile meta (CompileMeta::type_of). -/
def CompileMeta.type_of : CompileMeta → Option Hash
  | ⟨.tuple t _⟩ => some t
  | ⟨.tupleVariant t _ _⟩ => some t
  | ⟨.struct t _⟩ => some t
  | ⟨.structVariant t _ _⟩ => some t
  | ⟨.function t _⟩ => some t
  | ⟨.other _ t⟩ => t

/-- The virtual machine instructions emitted by the compiler core, from the
instruction vocabulary of the spec (runestick Inst).  Jump instructions keep
their symbolic label, as in the Assembly buffer before finalisation. -/
inductive Inst where
  | call (hash : Hash) (args : Nat)
  | fn (hash : Hash)
  | type (hash : Hash)
  | pop
  | popN (count : Nat)
  | clean (count : Nat)
  | copy (offset : Nat)
  | matchSequence (type_check : TypeCheck) (len : Nat) (exact : Bool)
  | matchObject (type_check : TypeCheck) (slot : Nat) (exact : Bool)
  | isUnit
  | eqByte (byte : Nat)
  | eqCharacter (character : Char)
  | eqInteger (integer : Int)
  | eqStaticString (slot : Nat)
  | tupleIndexGetAt (offset : Nat) (index : Nat)
  | objectSlotIndexGetAt (offset : Nat) (slot : Nat)
  | jump (label : Label)
  | jumpIf (label : Label)
  | jumpIfNot (label : Label)
  | popAndJumpIfNot (count : Nat) (label : Label)
deriving DecidableEq, Repr

/-- The instruction buffer of one assembly: instruction and span pairs in
emission order (Assembly in the spec).  Assembly::push appends one pair;
push_with_comment appends the same pair, the comment text being purely
diagnostic and dropped here; pop_and_jump_if_not appends the corresponding
pseudo instruction. -/
abbrev Asm := List (Inst × Span)

/-- The compile errors of compiler.rs that the verified properties mention. -/
inductive CompileError where
  | unsupportedValue (span : Span) (meta : CompileMeta)
  | unsupportedType (span : Span) (meta : CompileMeta)
  | unsupportedPattern (span : Span)
  | unsupportedMetaPattern (meta : CompileMeta) (span : Span)
  | unsupportedArgumentCount (span : Span) (meta : CompileMeta)
      (expected : Nat) (actual : Nat)
  | unsupportedBinding (span : Span)
  | duplicateObjectKey (span : Span) (existing : Span) (object : Span)
  | litObjectNotField (span : Span) (field : String) (item : Item)
  | matchFloatInPattern (span : Span)
  | missingType (span : Span) (item : Item)
  | missingModule (span : Span) (item : Item)
  | missingPreludeModule (item : Item)
deriving DecidableEq, Repr

/-- The parse error kinds of ast/file.rs that the verified properties
mention. -/
inductive ParseErrorKind where
  | unsupportedItemAttributes
  | unsupportedItemVisibility
deriving DecidableEq, Repr

/-- A parse error: ParseError::new (span, kind). -/
structure ParseError where
  span : Span
  kind : ParseErrorKind
deriving DecidableEq, Repr

/-- The load errors produced by compile_with_options (LoadErrorKind). -/
inductive LoadError where
  | parseError (source_id : Nat) (error : ParseError)
  | compileError (source_id : Nat) (error : CompileError)
  | internal (msg : String)
deriving DecidableEq, Repr

/-- Modelled from the spec: one lexical scope (scopes.rs is not among the
provided files).  Named locals are kept in insertion order; local_var_count
counts the slots owned by this scope and total_var_count all slots below the
stack top, so that a fresh declaration receives slot total_var_count. -/
structure Scope where
  locals : List (String × Nat)
  local_var_count : Nat
  total_var_count : Nat
deriving DecidableEq, Repr

/-- Modelled from the spec: Scope::decl_anon - push an anonymous local and
return its slot. -/
def Scope.decl_anon (s : Scope) : Nat × Scope :=
  (s.total_var_count,
    { s with
      local_var_count := s.local_var_count + 1
      total_var_count := s.total_var_count + 1 })

/-- Modelled from the spec: Scope::decl_var - push a named local and return
its slot; a duplicate name shadows, it does not fail. -/
def Scope.decl_var (s : Scope) (name : String) : Nat × Scope :=
  (s.total_var_count,
    { locals := s.locals ++ [(name, s.total_var_count)]
      local_var_count := s.local_var_count + 1
      total_var_count := s.total_var_count + 1 })

/-- Modelled from the spec: the static pools of the unit builder (unit.rs is
not among the provided files): the static string pool and the static
object-key sets, both interned slot tables. -/
structure UnitBuilder where
  static_strings : List String
  static_object_keys : List (List String)
deriving DecidableEq, Repr

/-- The slot of an entry in an interning pool: the index of its first
occurrence, when present. -/
def pool_index {α : Type} [DecidableEq α] : List α → α → Option Nat
  | [], _ => Option.none
  | x :: rest, s =>
    if x = s then some 0 else (pool_index rest s).map (· + 1)

/-- Modelled from the spec: UnitBuilder::new_static_string - intern a string
into the static string pool and return its slot. -/
def UnitBuilder.new_static_string (u : UnitBuilder) (s : String) :
    Nat × UnitBuilder :=
  match pool_index u.static_strings s with
  | some i => (i, u)
  | Option.none =>
    (u.static_strings.length, { u with static_strings := u.static_strings ++ [s] })

/-- Modelled from the spec: UnitBuilder::new_static_object_keys - intern a key
set into the static object-key table and return its slot. -/
def UnitBuilder.new_static_object_keys (u : UnitBuilder) (keys : List String) :
    Nat × UnitBuilder :=
  match pool_index u.static_object_keys keys with
  | some i => (i, u)
  | Option.none =>
    (u.static_object_keys.length,
      { u with static_object_keys := u.static_object_keys ++ [keys] })

/-- The mutable compiler state threaded by the pattern compiler: the assembly
being generated and the shared unit builder. -/
structure CSt where
  asm : Asm
  unit : UnitBuilder
deriving DecidableEq, Repr

/-- A path as it occurs in patterns (ast::Path), reduced to its span and the
identifier segments; its conversion to an item is part of the environment. -/
structure AstPath where
  span : Span
  segments : List String
deriving DecidableEq, Repr

/-- The read-only collaborators of one compiling function: the external
context (Context::lookup_meta and Context::type_check_for), the query system
on its success path (Query::query_meta), the path conversion of the unit
builder (convert_path closed over the current base), and the current item of
the compiler (Compiler items).  The compile visitor of the source only
observes resolved metas and is dropped. -/
structure CompEnv where
  ctx_meta : Item → Option CompileMeta
  query_meta : Item → Option CompileMeta
  type_check_for : Item → Option TypeCheck
  path_to_item : AstPath → Item
  base : Item

/-- The ancestor walk of Compiler::lookup_meta: the loop joins the name to the
current item, queries, and pops one trailing component of the base until the
base is empty (Item::pop returns None). -/
def lookup_meta_walk (query : Item → Option CompileMeta) :
    Item → Item → Option CompileMeta
  | base, name =>
    match query (base ++ name) with
    | some meta => some meta
    | none =>
      match base with
      | [] => none
      | c :: cs => lookup_meta_walk query (c :: cs).dropLast name
termination_by base _ => base.length
decreasing_by
  simp [List.length_dropLast]

/-- Compiler::lookup_meta: consult the external context first, then walk from
the current item outward through the query system. -/
def lookup_meta (env : CompEnv) (name : Item) : Option CompileMeta :=
  match env.ctx_meta name with
  | some meta => some meta
  | none => lookup_meta_walk env.query_meta env.base name

/-- The ancestor chain of an item, innermost first, down to and including the
empty path.  This is the sequence of bases the lookup walk visits. -/
def ancestors : Item → List Item
  | [] => [[]]
  | c :: cs => (c :: cs) :: ancestors (c :: cs).dropLast
termination_by base => base.length
decreasing_by
  simp [List.length_dropLast]

/-- The Needs hint: what an expression must leave on the stack. -/
inductive Needs where
  | type
  | value
  | none
deriving DecidableEq, Repr

/-- Compiler::compile_meta: emit the value or the type descriptor of a
resolved meta.  With Needs::Value, a zero-arity tuple constructor or tuple
variant becomes a call, a non-zero-arity one and a function become a
first-class Fn value, and everything else is UnsupportedValue; with any other
hint, the type hash of the meta is emitted and a missing type_of projection
is UnsupportedType.  Instruction comments of push_with_comment are dropped. -/
def compile_meta (meta : CompileMeta) (span : Span) (needs : Needs)
    (asm : Asm) : Except CompileError Asm :=
  match needs with
  | .value =>
    match meta.kind with
    | .tuple _ tuple =>
      if tuple.args = 0 then
        .ok (asm ++ [(Inst.call tuple.hash 0, span)])
      else
        .ok (asm ++ [(Inst.fn tuple.hash, span)])
    | .tupleVariant _ _ tuple =>
      if tuple.args = 0 then
        .ok (asm ++ [(Inst.call tuple.hash 0, span)])
      else
        .ok (asm ++ [(Inst.fn tuple.hash, span)])
    | .function type_of _ =>
      .ok (asm ++ [(Inst.fn type_of, span)])
    | _ => .error (.unsupportedValue span meta)
  | _ =>
    match meta.type_of with
    | some hash => .ok (asm ++ [(Inst.type hash, span)])
    | Option.none => .error (.unsupportedType span meta)

/-- One entry of the imports table of the unit (iter_imports): the imported
item and, when recorded, the span and source id of the use declaration. -/
structure ImportEntry where
  item : Item
  span : Option (Span × Nat)
deriving DecidableEq, Repr

/-- verify_imports of compiler.rs: every import must be prefix-contained in
the external context or in the unit (the two contains_prefix tests); the
first entry contained in neither is fatal, as MissingModule at the recorded
span and source id when one exists and as MissingPreludeModule at source id 0
otherwise. -/
def verify_imports (contextHas unitHas : Item → Bool) :
    List ImportEntry → Except LoadError Unit
  | [] => .ok ()
  | entry :: rest =>
    if contextHas entry.item || unitHas entry.item then
      verify_imports contextHas unitHas rest
    else
      match entry.span with
      | some (span, source_id) =>
        .error (.compileError source_id (.missingModule span entry.item))
      | Option.none =>
        .error (.compileError 0 (.missingPreludeModule entry.item))

/-- A build entry of the query queue, reduced to what the driver loop of
compile_with_options inspects: the source id under which a compile error is
reported.  The build payload itself is consumed by the opaque per-entry
compilation function. -/
structure BuildEntrySt where
  source_id : Nat
deriving DecidableEq, Repr

/-- The build-entry loop at the end of compile_with_options: pop entries in
FIFO order and compile each, wrapping a failure as a CompileError load error
under the source id of the entry. -/
def compile_queue (compileEntry : BuildEntrySt → Except CompileError Unit) :
    List BuildEntrySt → Except LoadError Unit
  | [] => .ok ()
  | entry :: rest =>
    match compileEntry entry with
    | .error error => .error (.compileError entry.source_id error)
    | .ok () => compile_queue compileEntry rest

/-- The phase ordering of compile_with_options after parsing: run the worker
to completion, then verify_imports against the populated unit, then drain the
build queue.  The worker result and the per-entry compilation are opaque
parameters; imports and queue stand for the state the worker produced. -/
def compile_phase (workerResult : Except LoadError Unit)
    (contextHas unitHas : Item → Bool) (imports : List ImportEntry)
    (queue : List BuildEntrySt)
    (compileEntry : BuildEntrySt → Except CompileError Unit) :
    Except LoadError Unit := do
  workerResult
  verify_imports contextHas unitHas imports
  compile_queue compileEntry queue

/-- A resolved numeric literal (ast::Number).  The integer payload matters to
the pattern compiler, while a float is rejected outright before its value is
inspected, so the float payload (an f64) is not modelled. -/
inductive Number where
  | integer (value : Int)
  | float
deriving DecidableEq, Repr

/-- The key of one object pattern field (ast::LitObjectKey): a raw identifier
or a string literal; resolving either yields the key string. -/
inductive LitObjectKey where
  | ident (span : Span) (name : String)
  | litStr (span : Span) (value : String)
deriving DecidableEq, Repr

/-- The span of an object key. -/
def LitObjectKey.span : LitObjectKey → Span
  | .ident sp _ => sp
  | .litStr sp _ => sp

/-- Resolution of an object key to the key string (the Resolve impl). -/
def LitObjectKey.keyString : LitObjectKey → String
  | .ident _ s => s
  | .litStr _ s => s

/-- The identifier in front of an object pattern (ast::LitObjectIdent): a
named path or the anonymous object marker. -/
inductive LitObjectIdent where
  | named (path : AstPath)
  | anonymous (span : Span)
deriving DecidableEq, Repr

mutual
/-- The closed set of pattern kinds (ast::Pat).  Sub-pattern lists carry the
pattern and its trailing comma in the source; the comma is dropped.  The
open_pat flag models open_pattern.is_some, the presence of a trailing dotdot
marker. -/
inductive Pat where
  | patPath (path : AstPath)
  | patIgnore (span : Span)
  | patUnit (span : Span)
  | patByte (span : Span) (byte : Nat)
  | patChar (span : Span) (character : Char)
  | patNumber (span : Span) (number : Number)
  | patString (span : Span) (string : String)
  | patVec (span : Span) (items : List Pat) (open_pat : Bool)
  | patTuple (span : Span) (path : Option AstPath) (items : List Pat)
      (open_pat : Bool)
  | patObject (span : Span) (ident : LitObjectIdent) (fields : List PatField)
      (open_pat : Bool)

/-- One field of an object pattern (ast::LitObjectFieldAssign): its span, its
key, and the optional explicit sub-pattern binding. -/
inductive PatField where
  | mk (span : Span) (key : LitObjectKey) (binding : Option Pat)
end

/-- The span of a pattern (the Spanned impl; a path pattern spans its
path). -/
def Pat.span : Pat → Span
  | .patPath path => path.span
  | .patIgnore sp => sp
  | .patUnit sp => sp
  | .patByte sp _ => sp
  | .patChar sp _ => sp
  | .patNumber sp _ => sp
  | .patString sp _ => sp
  | .patVec sp _ _ => sp
  | .patTuple sp _ _ _ => sp
  | .patObject sp _ _ _ => sp

/-- The span of an object pattern field. -/
def PatField.span : PatField → Span
  | .mk sp _ _ => sp

/-- The key of an object pattern field. -/
def PatField.key : PatField → LitObjectKey
  | .mk _ k _ => k

/-- The binding of an object pattern field. -/
def PatField.binding : PatField → Option Pat
  | .mk _ _ b => b

/-- Compiler::compile_pat_meta_binding: a path pattern whose meta is a
zero-arity tuple or tuple variant compiles to a zero-length MatchSequence
against the derived type check (overridden by a context-provided
type_check_for) followed by pop_and_jump_if_not; any other meta leaves the
state untouched and reports that the binding was not used. -/
def compile_pat_meta_binding (env : CompEnv) (st : CSt) (scope : Scope)
    (span : Span) (meta : CompileMeta) (false_label : Label)
    (load : Asm → Asm) : Except CompileError (CSt × Bool) :=
  match meta.kind with
  | .tuple type_of tuple =>
    if tuple.args = 0 then
      let type_check :=
        match env.type_check_for tuple.item with
        | some tc => tc
        | Option.none => TypeCheck.type type_of
      .ok ({ st with asm := load st.asm ++
        [(Inst.matchSequence type_check tuple.args true, span),
         (Inst.popAndJumpIfNot scope.local_var_count false_label, span)] }, true)
    else .ok (st, false)
  | .tupleVariant type_of _ tuple =>
    if tuple.args = 0 then
      let type_check :=
        match env.type_check_for tuple.item with
        | some tc => tc
        | Option.none => TypeCheck.variant type_of
      .ok ({ st with asm := load st.asm ++
        [(Inst.matchSequence type_check tuple.args true, span),
         (Inst.popAndJumpIfNot scope.local_var_count false_label, span)] }, true)
    else .ok (st, false)
  | _ => .ok (st, false)

/-- The first phase of compile_pat_object: walk the fields in order, intern
every key into the static string pool, collect the slots and the key strings,
and fail with DuplicateObjectKey - at the span of the offending field, with
the span of the earlier occurrence as existing - as soon as a key repeats
(the keys_dup map of the source, threaded here as the seen list). -/
def scan_object_keys (object_span : Span) :
    UnitBuilder → List PatField → List (String × Span) →
    Except CompileError (List Nat × List String × UnitBuilder)
  | unit, [], _ => .ok ([], [], unit)
  | unit, field :: rest, seen =>
    let key := field.key.keyString
    let (slot, unit1) := unit.new_static_string key
    match List.lookup key seen with
    | some existing =>
      .error (.duplicateObjectKey field.span existing object_span)
    | Option.none =>
      match scan_object_keys object_span unit1 rest (seen ++ [(key, field.span)]) with
      | .error e => .error e
      | .ok (slots, keys, unit2) => .ok (slot :: slots, key :: keys, unit2)

/-- The field-set validation loop of compile_pat_object for a named typed
record: every pattern key must be one of the declared fields, else
LitObjectNotField at the span of the key. -/
def check_object_fields (decl_fields : List String) (object_item : Item) :
    List PatField → Except CompileError Unit
  | [] => .ok ()
  | field :: rest =>
    let key := field.key.keyString
    if decl_fields.contains key then
      check_object_fields decl_fields object_item rest
    else
      .error (.litObjectNotField field.key.span key object_item)

/-- The type-check resolution of compile_pat_object: an anonymous object
pattern checks against TypeCheck::Object; a named one resolves its path,
requires a struct or struct variant meta (else UnsupportedMetaPattern, and
MissingType when nothing resolves), requires the field set to be known, and
validates every pattern key against it. -/
def resolve_object_type_check (env : CompEnv) (fields : List PatField) :
    LitObjectIdent → Except CompileError TypeCheck
  | .named path =>
    let span := path.span
    let item := env.path_to_item path
    match lookup_meta env item with
    | Option.none => .error (.missingType span item)
    | some meta =>
      match meta.kind with
      | .struct type_of object =>
        match object.fields with
        | Option.none => .error (.unsupportedMetaPattern meta span)
        | some decl_fields =>
          match check_object_fields decl_fields object.item fields with
          | .error e => .error e
          | .ok () => .ok (.type type_of)
      | .structVariant type_of _ object =>
        match object.fields with
        | Option.none => .error (.unsupportedMetaPattern meta span)
        | some decl_fields =>
          match check_object_fields decl_fields object.item fields with
          | .error e => .error e
          | .ok () => .ok (.variant type_of)
      | _ => .error (.unsupportedMetaPattern meta span)
  | .anonymous _ => .ok TypeCheck.object

/-- The arity check and type-check override of compile_pat_tuple for a
resolved tuple meta: the sub-pattern count must equal the declared arity, or
be strictly smaller with an open pattern, else UnsupportedArgumentCount; on
success a context-provided type_check_for the constructor item overrides the
derived check. -/
def tuple_arity_and_check (env : CompEnv) (span : Span) (meta : CompileMeta)
    (tuple : CompileMetaTuple) (tc : TypeCheck) (count : Nat)
    (is_open : Bool) : Except CompileError TypeCheck :=
  if tuple.args = count ∨ (count < tuple.args ∧ is_open) then
    .ok (match env.type_check_for tuple.item with
      | some tc2 => tc2
      | Option.none => tc)
  else
    .error (.unsupportedArgumentCount span meta tuple.args count)

/-- The path resolution of compile_pat_tuple: without a path the check is
TypeCheck::Tuple; with one, the meta must be a tuple (TypeCheck::Type) or a
tuple variant (TypeCheck::Variant) - else UnsupportedMetaPattern, or
UnsupportedPattern when nothing resolves - and the arity check applies. -/
def tuple_type_check (env : CompEnv) (span : Span) (count : Nat)
    (is_open : Bool) : Option AstPath → Except CompileError TypeCheck
  | some path =>
    let item := env.path_to_item path
    match lookup_meta env item with
    | Option.none => .error (.unsupportedPattern span)
    | some meta =>
      match meta.kind with
      | .tuple type_of tuple =>
        tuple_arity_and_check env span meta tuple (.type type_of) count is_open
      | .tupleVariant type_of _ tuple =>
        tuple_arity_and_check env span meta tuple (.variant type_of) count is_open
      | _ => .error (.unsupportedMetaPattern meta span)
  | Option.none => .ok TypeCheck.tuple

mutual
/-- Compiler::compile_pat: compile one pattern against the scrutinee
materialised by load, falling through on a match and jumping to false_label
on a mismatch; the returned flag tells whether false_label was used.  Arms
are in source order; the literal arms share the trailing
pop_and_jump_if_not of the source. -/
def compile_pat (env : CompEnv) (st : CSt) (scope : Scope) (pat : Pat)
    (false_label : Label) (load : Asm → Asm) :
    Except CompileError (CSt × Scope × Bool) :=
  match pat with
  | .patPath path =>
    let span := path.span
    let item := env.path_to_item path
    let metaRes :=
      match lookup_meta env item with
      | some meta =>
        compile_pat_meta_binding env st scope span meta false_label load
      | Option.none => .ok (st, false)
    match metaRes with
    | .error e => .error e
    | .ok (st1, true) => .ok (st1, scope, true)
    | .ok (st1, false) =>
      match item.as_local with
      | some ident =>
        let asm1 := load st1.asm
        let (_, scope1) := scope.decl_var ident
        .ok ({ st1 with asm := asm1 }, scope1, false)
      | Option.none => .error (.unsupportedBinding span)
  | .patIgnore _ => .ok (st, scope, false)
  | .patUnit span =>
    .ok ({ st with asm := load st.asm ++ [(Inst.isUnit, span),
      (Inst.popAndJumpIfNot scope.local_var_count false_label, span)] },
      scope, true)
  | .patByte span byte =>
    .ok ({ st with asm := load st.asm ++ [(Inst.eqByte byte, span),
      (Inst.popAndJumpIfNot scope.local_var_count false_label, span)] },
      scope, true)
  | .patChar span character =>
    .ok ({ st with asm := load st.asm ++ [(Inst.eqCharacter character, span),
      (Inst.popAndJumpIfNot scope.local_var_count false_label, span)] },
      scope, true)
  | .patNumber span number =>
    match number with
    | .float => .error (.matchFloatInPattern span)
    | .integer integer =>
      .ok ({ st with asm := load st.asm ++ [(Inst.eqInteger integer, span),
        (Inst.popAndJumpIfNot scope.local_var_count false_label, span)] },
        scope, true)
  | .patString span string =>
    let (slot, unit1) := st.unit.new_static_string string
    let asm1 := load st.asm ++ [(Inst.eqStaticString slot, span),
      (Inst.popAndJumpIfNot scope.local_var_count false_label, span)]
    .ok ({ asm := asm1, unit := unit1 }, scope, true)
  | .patVec span items open_pat =>
    match compile_pat_vec env st scope span items open_pat false_label load with
    | .error e => .error e
    | .ok (st1, scope1) => .ok (st1, scope1, true)
  | .patTuple span path items open_pat =>
    match compile_pat_tuple env st scope span path items open_pat false_label load with
    | .error e => .error e
    | .ok (st1, scope1) => .ok (st1, scope1, true)
  | .patObject span ident fields open_pat =>
    match compile_pat_object env st scope span ident fields open_pat false_label load with
    | .error e => .error e
    | .ok (st1, scope1) => .ok (st1, scope1, true)
termination_by (sizeOf pat, 0)

/-- Compiler::compile_pat_vec: bind the loaded scrutinee to an anonymous
slot, copy it, match it as a vector of the given length (exact unless the
pattern is open), discard the owned slots and branch on mismatch, then
compile each sub-pattern against a tuple-index load from the slot. -/
def compile_pat_vec (env : CompEnv) (st : CSt) (scope : Scope) (span : Span)
    (items : List Pat) (open_pat : Bool) (false_label : Label)
    (load : Asm → Asm) : Except CompileError (CSt × Scope) :=
  let asm0 := load st.asm
  let (offset, scope1) := scope.decl_anon
  let asm1 := asm0 ++ [(Inst.copy offset, span),
    (Inst.matchSequence TypeCheck.vec items.length (!open_pat), span),
    (Inst.popAndJumpIfNot scope1.local_var_count false_label, span)]
  compile_pat_items env { st with asm := asm1 } scope1 offset 0 items
    false_label
termination_by (sizeOf items, 1)

/-- Compiler::compile_pat_tuple: like a vector pattern, but the type check
comes from the optional path prefix (with arity validation) and defaults to
TypeCheck::Tuple. -/
def compile_pat_tuple (env : CompEnv) (st : CSt) (scope : Scope) (span : Span)
    (path : Option AstPath) (items : List Pat) (open_pat : Bool)
    (false_label : Label) (load : Asm → Asm) :
    Except CompileError (CSt × Scope) :=
  let asm0 := load st.asm
  let (offset, scope1) := scope.decl_anon
  match tuple_type_check env span items.length open_pat path with
  | .error e => .error e
  | .ok type_check =>
    let asm1 := asm0 ++ [(Inst.copy offset, span),
      (Inst.matchSequence type_check items.length (!open_pat), span),
      (Inst.popAndJumpIfNot scope1.local_var_count false_label, span)]
    compile_pat_items env { st with asm := asm1 } scope1 offset 0 items
      false_label
termination_by (sizeOf items, 1)

/-- Compiler::compile_pat_object: bind the loaded scrutinee to an anonymous
slot, intern all keys (failing on duplicates), intern the key set, resolve
the type check (validating typed-record fields), match the object, discard
the owned slots and branch on mismatch, then handle each field against an
object-slot load from the slot. -/
def compile_pat_object (env : CompEnv) (st : CSt) (scope : Scope)
    (span : Span) (ident : LitObjectIdent) (fields : List PatField)
    (open_pat : Bool) (false_label : Label) (load : Asm → Asm) :
    Except CompileError (CSt × Scope) :=
  let asm0 := load st.asm
  let (offset, scope1) := scope.decl_anon
  match scan_object_keys span st.unit fields [] with
  | .error e => .error e
  | .ok (string_slots, keys, unit1) =>
    let (keys_slot, unit2) := unit1.new_static_object_keys keys
    match resolve_object_type_check env fields ident with
    | .error e => .error e
    | .ok type_check =>
      let asm1 := asm0 ++ [(Inst.copy offset, span),
        (Inst.matchObject type_check keys_slot (!open_pat), span),
        (Inst.popAndJumpIfNot scope1.local_var_count false_label, span)]
      compile_object_fields env { asm := asm1, unit := unit2 } scope1 offset
        false_label fields string_slots
termination_by (sizeOf fields, 1)

/-- The sub-pattern loop shared by compile_pat_vec and compile_pat_tuple:
compile each sub-pattern in order, loading it through TupleIndexGetAt at the
bound slot and its index. -/
def compile_pat_items (env : CompEnv) (st : CSt) (scope : Scope)
    (offset : Nat) (index : Nat) (items : List Pat) (false_label : Label) :
    Except CompileError (CSt × Scope) :=
  match items with
  | [] => .ok (st, scope)
  | pat :: rest =>
    match compile_pat env st scope pat false_label
        (fun asm => asm ++ [(Inst.tupleIndexGetAt offset index, pat.span)]) with
    | .error e => .error e
    | .ok (st1, scope1, _) =>
      compile_pat_items env st1 scope1 offset (index + 1) rest false_label
termination_by (sizeOf items, 0)

/-- The per-field loop of compile_pat_object, walking the fields zipped with
their interned string slots: an explicit sub-pattern recurses against an
ObjectSlotIndexGetAt load; a bare field must be an identifier key (else
UnsupportedBinding), which is loaded and declared as a local of that name. -/
def compile_object_fields (env : CompEnv) (st : CSt) (scope : Scope)
    (offset : Nat) (false_label : Label) :
    List PatField → List Nat → Except CompileError (CSt × Scope)
  | [], _ => .ok (st, scope)
  | _ :: _, [] => .ok (st, scope)
  | .mk fspan fkey fbinding :: frest, slot :: srest =>
    match fbinding with
    | some pat =>
      match compile_pat env st scope pat false_label
          (fun asm => asm ++ [(Inst.objectSlotIndexGetAt offset slot, fspan)]) with
      | .error e => .error e
      | .ok (st1, scope1, _) =>
        compile_object_fields env st1 scope1 offset false_label frest srest
    | Option.none =>
      match fkey with
      | .ident _ name =>
        let asm1 := st.asm ++ [(Inst.objectSlotIndexGetAt offset slot, fspan)]
        let (_, scope1) := scope.decl_var name
        compile_object_fields env { st with asm := asm1 } scope1 offset
          false_label frest srest
      | _ => .error (.unsupportedBinding fspan)
termination_by fields _ => (sizeOf fields, 0)
end

/-- Modelled from the spec: the token shapes that drive the File parse loop
(the attribute, visibility and item sub-parsers are not among the provided
files).  innerAttr is a file-level attribute accepted only at the top of the
file; attr is an item attribute; pubKw is a visibility modifier; itemTok
opens an item (what Item::peek_as_stmt accepts); semi is a semicolon. -/
inductive Tok where
  | innerAttr (span : Span)
  | attr (span : Span)
  | pubKw (span : Span)
  | itemTok (span : Span)
  | semi (span : Span)
deriving DecidableEq, Repr

/-- Modelled from the spec: the leading loop of File::parse collecting
file-level attributes at the top of the file. -/
def parse_file_attributes : List Tok → List Span × List Tok
  | .innerAttr sp :: rest =>
    let (attrs, toks) := parse_file_attributes rest
    (sp :: attrs, toks)
  | toks => ([], toks)

/-- Modelled from the spec: the item-attribute sub-parse, consuming the
leading item attributes and returning their spans. -/
def parse_attributes : List Tok → List Span × List Tok
  | .attr sp :: rest =>
    let (attrs, toks) := parse_attributes rest
    (sp :: attrs, toks)
  | toks => ([], toks)

/-- Modelled from the spec: the visibility sub-parse, consuming one optional
pub modifier. -/
def parse_visibility : List Tok → Option Span × List Tok
  | .pubKw sp :: rest => (some sp, rest)
  | toks => (Option.none, toks)

/-- Modelled from the spec: the optional trailing semicolon after an item. -/
def consume_semi : List Tok → List Tok
  | .semi _ :: rest => rest
  | toks => toks

/-- The option_span of a parsed attribute vector: present exactly when the
vector is nonempty.  The source joins all attribute spans; the span of the
first attribute stands in for the joined span here. -/
def attributes_span : List Span → Option Span
  | [] => Option.none
  | sp :: _ => some sp

/-- The item loop of File::parse: parse item attributes and a visibility
modifier and, as long as an item follows, parse the item with its optional
semicolon and repeat; at loop exit, attributes without a following item are
UnsupportedItemAttributes and a dangling visibility modifier is
UnsupportedItemVisibility, checked in that order.  The source parses the
meta before the loop and again at the end of each iteration; the loop body
is rotated accordingly here. -/
def item_loop (toks : List Tok) : Except ParseError (List Span × List Tok) :=
  let pa := parse_attributes toks
  let pv := parse_visibility pa.2
  match _hm : pv.2 with
  | .itemTok sp :: rest =>
    match item_loop (consume_semi rest) with
    | .error e => .error e
    | .ok (items, trest) => .ok (sp :: items, trest)
  | _ =>
    match attributes_span pa.1 with
    | some sp => .error ⟨sp, .unsupportedItemAttributes⟩
    | Option.none =>
      match pv.1 with
      | some sp => .error ⟨sp, .unsupportedItemVisibility⟩
      | Option.none => .ok ([], pv.2)
termination_by toks.length
decreasing_by
  have hpa : ∀ ts : List Tok, (parse_attributes ts).2.length ≤ ts.length := by
    intro ts
    induction ts with
    | nil => simp [parse_attributes]
    | cons t rest2 ih =>
      cases t <;> simp [parse_attributes] <;> omega
  have hpv : ∀ ts : List Tok, (parse_visibility ts).2.length ≤ ts.length := by
    intro ts
    cases ts with
    | nil => simp [parse_visibility]
    | cons t rest2 =>
      cases t <;> simp [parse_visibility]
  have hcs : ∀ ts : List Tok, (consume_semi ts).length ≤ ts.length := by
    intro ts
    cases ts with
    | nil => simp [consume_semi]
    | cons t rest2 =>
      cases t <;> simp [consume_semi]
  simp_wf
  have h1 := hpa toks
  have h2 := hpv (parse_attributes toks).2
  have h3 := hcs rest
  rw [_hm] at h2
  simp at h2
  omega

/-- File::parse over the token model: collect the file attributes, then run
the item loop; the unconsumed remainder is returned for the enclosing
parse_all, which requires it to be empty. -/
def parse_file (toks : List Tok) :
    Except ParseError (List Span × List Span × List Tok) :=
  let pfa := parse_file_attributes toks
  match item_loop pfa.2 with
  | .error e => .error e
  | .ok (items, rest) => .ok (pfa.1, items, rest)

/-- Specification-side characterization of duplicate object keys: the spans
of the first and second occurrence of the earliest repeated key, threading
the keys seen so far exactly as the keys_dup map does. -/
def first_dup_from (seen : List (String × Span)) :
    List PatField → Option (Span × Span)
  | [] => Option.none
  | field :: rest =>
    match List.lookup field.key.keyString seen with
    | some existing => some (existing, field.span)
    | Option.none =>
      first_dup_from (seen ++ [(field.key.keyString, field.span)]) rest

/-- The spans of the first and second occurrence of the earliest repeated
key of an object pattern, when one exists. -/
def first_dup (fields : List PatField) : Option (Span × Span) :=
  first_dup_from [] fields

/-- Specification-side: the earliest pattern key that is not among the
declared fields, with the span of its key. -/
def first_missing (decl_fields : List String) :
    List PatField → Option (String × Span)
  | [] => Option.none
  | field :: rest =>
    if decl_fields.contains field.key.keyString then
      first_missing decl_fields rest
    else
      some (field.key.keyString, field.key.span)

/-- A compile environment in which no item resolves, used by the concrete
instances below. -/
def envNone : CompEnv :=
  { ctx_meta := fun _ => Option.none
    query_meta := fun _ => Option.none
    type_check_for := fun _ => Option.none
    path_to_item := fun p => p.segments
    base := [] }

/-- The empty compiler state. -/
def st0 : CSt :=
  { asm := [], unit := { static_strings := [], static_object_keys := [] } }

/-- The empty scope. -/
def scope0 : Scope :=
  { locals := [], local_var_count := 0, total_var_count := 0 }

/-- The struct meta of a record S with declared fields a and b. -/
def metaS : CompileMeta := ⟨.struct 100 ⟨["S"], some ["a", "b"]⟩⟩

/-- An environment resolving the path S to metaS through the context. -/
def envS : CompEnv :=
  { ctx_meta := fun item => if item = ["S"] then some metaS else Option.none
    query_meta := fun _ => Option.none
    type_check_for := fun _ => Option.none
    path_to_item := fun p => p.segments
    base := [] }

/-- The tuple meta of a two-argument tuple constructor T. -/
def metaT : CompileMeta := ⟨.tuple 60 ⟨["T"], 61, 2⟩⟩

/-- An environment resolving the path T to metaT through the context. -/
def envT : CompEnv :=
  { ctx_meta := fun item => if item = ["T"] then some metaT else Option.none
    query_meta := fun _ => Option.none
    type_check_for := fun _ => Option.none
    path_to_item := fun p => p.segments
    base := [] }

/-- An environment with two user items both called x - one inside module a
and one at the root - and a.b as the current item, exercising the outward
walk of the metadata lookup. -/
def envW : CompEnv :=
  { ctx_meta := fun _ => Option.none
    query_meta := fun item =>
      if item = ["a", "x"] then some metaT
      else if item = ["x"] then some metaS
      else Option.none
    type_check_for := fun _ => Option.none
    path_to_item := fun p => p.segments
    base := ["a", "b"] }

theorem pool_index_getElem {α : Type} [DecidableEq α] (l : List α) (s : α) :
    ∀ i, pool_index l s = some i → l[i]? = some s := by
  induction l with
  | nil => intro i h; simp [pool_index] at h
  | cons x rest ih =>
    intro i h
    simp only [pool_index] at h
    by_cases hx : x = s
    · simp [hx] at h
      subst hx
      subst h
      simp
    · simp [hx] at h
      obtain ⟨j, hj, hi⟩ := h
      subst hi
      simpa using ih j hj

theorem new_static_string_interns (u : UnitBuilder) (s : String) :
    ((u.new_static_string s).2).static_strings[(u.new_static_string s).1]? =
      some s := by
  unfold UnitBuilder.new_static_string
  cases h : pool_index u.static_strings s with
  | none =>
    simp [List.getElem?_append_right]
  | some i =>
    simpa using pool_index_getElem u.static_strings s i h

/-- C5: a byte, char or integer literal pattern compiles to the load followed
by the matching equality instruction (EqByte, EqCharacter, EqInteger) and the
shared pop_and_jump_if_not; a string literal pattern first interns the string
into the static string pool (the returned slot indexes the interned string)
and emits EqStaticString at that slot; a number literal resolving to a float
fails with MatchFloatInPattern, and the error result carries no emitted
instructions. -/
theorem claim_C5_literal_patterns (env : CompEnv) (st : CSt) (scope : Scope)
    (fl : Label) (load : Asm → Asm) (sp : Span) :
    (∀ b, compile_pat env st scope (.patByte sp b) fl load =
      .ok ({ st with asm := load st.asm ++ [(Inst.eqByte b, sp),
        (Inst.popAndJumpIfNot scope.local_var_count fl, sp)] }, scope, true))
    ∧ (∀ c, compile_pat env st scope (.patChar sp c) fl load =
      .ok ({ st with asm := load st.asm ++ [(Inst.eqCharacter c, sp),
        (Inst.popAndJumpIfNot scope.local_var_count fl, sp)] }, scope, true))
    ∧ (∀ i : Int, compile_pat env st scope (.patNumber sp (.integer i)) fl load =
      .ok ({ st with asm := load st.asm ++ [(Inst.eqInteger i, sp),
        (Inst.popAndJumpIfNot scope.local_var_count fl, sp)] }, scope, true))
    ∧ (∀ s, compile_pat env st scope (.patString sp s) fl load =
      .ok (⟨load st.asm ++
          [(Inst.eqStaticString (st.unit.new_static_string s).1, sp),
           (Inst.popAndJumpIfNot scope.local_var_count fl, sp)],
        (st.unit.new_static_string s).2⟩, scope, true))
    ∧ (∀ s, ((st.unit.new_static_string s).2).static_strings[(st.unit.new_static_string s).1]? = some s)
    ∧ compile_pat env st scope (.patNumber sp .float) fl load =
        .error (.matchFloatInPattern sp) := by
  refine ⟨?_, ?_, ?_, ?_, ?_, ?_⟩
  · intro b; simp [compile_pat]
  · intro c; simp [compile_pat]
  · intro i; simp [compile_pat]
  · intro s; simp [compile_pat]
  · intro s; exact new_static_string_interns st.unit s
  · simp [compile_pat]

/-- C6: with Needs::Value, compile_meta emits Call (hash, 0) for a tuple or
tuple variant of declared arity zero, Fn (hash) for one of non-zero arity and
for a function, and fails with UnsupportedValue for every other meta kind;
with Needs::Type it emits Type (hash) from the type_of projection and fails
with UnsupportedType exactly when type_of is absent. -/
theorem claim_C6_compile_meta (meta : CompileMeta) (sp : Span) (asm : Asm) :
    (∀ ty tup, (meta.kind = .tuple ty tup ∨
        (∃ en, meta.kind = .tupleVariant ty en tup)) →
      compile_meta meta sp .value asm =
        if tup.args = 0 then .ok (asm ++ [(Inst.call tup.hash 0, sp)])
        else .ok (asm ++ [(Inst.fn tup.hash, sp)]))
    ∧ (∀ ty itm, meta.kind = .function ty itm →
      compile_meta meta sp .value asm = .ok (asm ++ [(Inst.fn ty, sp)]))
    ∧ ((∀ ty tup, meta.kind ≠ .tuple ty tup) →
       (∀ ty en tup, meta.kind ≠ .tupleVariant ty en tup) →
       (∀ ty itm, meta.kind ≠ .function ty itm) →
      compile_meta meta sp .value asm = .error (.unsupportedValue sp meta))
    ∧ (compile_meta meta sp .type asm =
        match meta.type_of with
        | some h => .ok (asm ++ [(Inst.type h, sp)])
        | Option.none => .error (.unsupportedType sp meta)) := by
  refine ⟨?_, ?_, ?_, ?_⟩
  · intro ty tup h
    rcases h with h | ⟨en, h⟩ <;> simp [compile_meta, h]
  · intro ty itm h
    simp [compile_meta, h]
  · intro h1 h2 h3
    cases hk : meta.kind with
    | tuple ty tup => exact absurd hk (h1 ty tup)
    | tupleVariant ty en tup => exact absurd hk (h2 ty en tup)
    | function ty itm => exact absurd hk (h3 ty itm)
    | struct ty obj => simp [compile_meta, hk]
    | structVariant ty en obj => simp [compile_meta, hk]
    | other itm ty => simp [compile_meta, hk]
  · simp [compile_meta]

/-- C6 witness: the theorem applied at concrete metas - a zero-arity tuple
variant compiles to a zero-argument call, and a struct meta under
Needs::Value is UnsupportedValue. -/
theorem claim_C6_compile_meta_witness :
    compile_meta ⟨.tupleVariant 50 ["Opt"] ⟨["Opt", "None"], 11, 0⟩⟩ 3 .value [] =
      .ok [(Inst.call 11 0, 3)]
    ∧ compile_meta metaS 3 .value [] = .error (.unsupportedValue 3 metaS) := by
  constructor
  · have h := (claim_C6_compile_meta ⟨.tupleVariant 50 ["Opt"] ⟨["Opt", "None"], 11, 0⟩⟩ 3 []).1
      50 ⟨["Opt", "None"], 11, 0⟩ (Or.inr ⟨["Opt"], rfl⟩)
    simpa using h
  · have h := (claim_C6_compile_meta metaS 3 []).2.2.1
      (by intro ty tup h; simp [metaS] at h)
      (by intro ty en tup h; simp [metaS] at h)
      (by intro ty itm h; simp [metaS] at h)
    simpa using h

/-- C10: compile_meta treats Needs::None exactly like Needs::Type - it still
pushes a Type instruction from the type_of projection and fails with
UnsupportedType when the projection is absent, even though the caller
requested no value. -/
theorem claim_C10_needs_none_is_type (meta : CompileMeta) (sp : Span)
    (asm : Asm) :
    compile_meta meta sp .none asm = compile_meta meta sp .type asm
    ∧ compile_meta meta sp .none asm =
        (match meta.type_of with
         | some h => .ok (asm ++ [(Inst.type h, sp)])
         | Option.none => .error (.unsupportedType sp meta)) := by
  constructor
  · simp [compile_meta]
  · simp [compile_meta]

/-- C1: compile_pat_vec applies the load op exactly once, binds the scrutinee
to a fresh anonymous slot (the next free slot of the scope), then emits
Copy (offset) followed by MatchSequence (Vec, number of sub-patterns,
exact = true iff no open dotdot suffix) and pop_and_jump_if_not of the
updated local_var_count to false_label, and hands the sub-patterns in order
to the item loop whose loader emits TupleIndexGetAt (offset, index); in
particular the open one-element pattern corresponding to a-then-rest
produces MatchSequence (Vec, 1, exact false). -/
theorem claim_C1_compile_pat_vec (env : CompEnv) (st : CSt) (scope : Scope)
    (span : Span) (items : List Pat) (op : Bool) (fl : Label)
    (load : Asm → Asm) :
    compile_pat_vec env st scope span items op fl load =
      compile_pat_items env
        { st with asm := load st.asm ++ [(Inst.copy scope.total_var_count, span),
            (Inst.matchSequence TypeCheck.vec items.length (!op), span),
            (Inst.popAndJumpIfNot (scope.local_var_count + 1) fl, span)] }
        { scope with local_var_count := scope.local_var_count + 1
                     total_var_count := scope.total_var_count + 1 }
        scope.total_var_count 0 items fl
    ∧ compile_pat envNone st0 scope0
        (Pat.patVec 0 [Pat.patPath ⟨1, ["a"]⟩] true) 7 id =
      .ok (⟨[(Inst.copy 0, 0), (Inst.matchSequence TypeCheck.vec 1 false, 0),
          (Inst.popAndJumpIfNot 1 7, 0), (Inst.tupleIndexGetAt 0 0, 1)],
        ⟨[], []⟩⟩, ⟨[("a", 1)], 2, 2⟩, true) := by
  constructor
  · simp [compile_pat_vec, Scope.decl_anon]
  · simp [compile_pat, compile_pat_vec, compile_pat_items,
      compile_pat_meta_binding, lookup_meta, lookup_meta_walk, envNone, st0,
      scope0, Scope.decl_anon, Scope.decl_var, Item.as_local, Pat.span]

/-- C2: for a tuple pattern whose path resolves to a tuple or tuple-variant
meta of declared arity tup.args, compilation proceeds past the arity check
exactly when the sub-pattern count equals the arity or the pattern is open
with strictly fewer sub-patterns; otherwise it fails with
UnsupportedArgumentCount carrying expected = declared arity and actual =
sub-pattern count.  On success the emission continues with the match
sequence against the derived type check (or its context override) and the
sub-pattern item loop. -/
theorem claim_C2_tuple_arity (env : CompEnv) (st : CSt) (scope : Scope)
    (span : Span) (path : AstPath) (items : List Pat) (op : Bool) (fl : Label)
    (load : Asm → Asm) (meta : CompileMeta) (ty : Hash)
    (tup : CompileMetaTuple) (tcd : TypeCheck)
    (hmeta : lookup_meta env (env.path_to_item path) = some meta)
    (hkind : meta.kind = .tuple ty tup ∧ tcd = TypeCheck.type ty ∨
      (∃ en, meta.kind = .tupleVariant ty en tup) ∧ tcd = TypeCheck.variant ty) :
    (¬ (tup.args = items.length ∨ (items.length < tup.args ∧ op)) →
      compile_pat_tuple env st scope span (some path) items op fl load =
        .error (.unsupportedArgumentCount span meta tup.args items.length))
    ∧ ((tup.args = items.length ∨ (items.length < tup.args ∧ op)) →
      compile_pat_tuple env st scope span (some path) items op fl load =
        compile_pat_items env
          { st with asm := load st.asm ++ [(Inst.copy scope.total_var_count, span),
              (Inst.matchSequence
                (match env.type_check_for tup.item with
                 | some tc2 => tc2
                 | Option.none => tcd) items.length (!op), span),
              (Inst.popAndJumpIfNot (scope.local_var_count + 1) fl, span)] }
          { scope with local_var_count := scope.local_var_count + 1
                       total_var_count := scope.total_var_count + 1 }
          scope.total_var_count 0 items fl) := by
  constructor
  · intro h
    rcases hkind with ⟨hk, _⟩ | ⟨⟨en, hk⟩, _⟩ <;>
      simp [compile_pat_tuple, tuple_type_check, hmeta, hk,
        tuple_arity_and_check, h, Scope.decl_anon]
  · intro h
    rcases hkind with ⟨hk, htc⟩ | ⟨⟨en, hk⟩, htc⟩ <;>
      subst htc <;>
      simp [compile_pat_tuple, tuple_type_check, hmeta, hk,
        tuple_arity_and_check, h, Scope.decl_anon]

/-- C2 witness: the theorem applied to the two-argument constructor T - a
closed pattern with one sub-pattern fails the arity check with expected 2
and actual 1, while an open pattern with one sub-pattern proceeds to the
emission. -/
theorem claim_C2_tuple_arity_witness :
    compile_pat_tuple envT st0 scope0 9 (some ⟨9, ["T"]⟩)
      [Pat.patIgnore 4] false 7 id =
      .error (.unsupportedArgumentCount 9 metaT 2 1)
    ∧ compile_pat_tuple envT st0 scope0 9 (some ⟨9, ["T"]⟩)
      [Pat.patIgnore 4] true 7 id =
      .ok (⟨[(Inst.copy 0, 9), (Inst.matchSequence (TypeCheck.type 60) 1 false, 9),
        (Inst.popAndJumpIfNot 1 7, 9)], ⟨[], []⟩⟩, ⟨[], 1, 1⟩) := by
  have hmeta : lookup_meta envT (envT.path_to_item ⟨9, ["T"]⟩) = some metaT := by
    simp [lookup_meta, envT]
  have hkind : metaT.kind = .tuple 60 ⟨["T"], 61, 2⟩ ∧
      TypeCheck.type 60 = TypeCheck.type 60 ∨
      (∃ en, metaT.kind = .tupleVariant 60 en ⟨["T"], 61, 2⟩) ∧
      TypeCheck.type 60 = TypeCheck.variant 60 :=
    Or.inl ⟨rfl, rfl⟩
  constructor
  · have h := (claim_C2_tuple_arity envT st0 scope0 9 ⟨9, ["T"]⟩
      [Pat.patIgnore 4] false 7 id metaT 60 ⟨["T"], 61, 2⟩ (TypeCheck.type 60)
      hmeta hkind).1 (by simp)
    simpa using h
  · have h := (claim_C2_tuple_arity envT st0 scope0 9 ⟨9, ["T"]⟩
      [Pat.patIgnore 4] true 7 id metaT 60 ⟨["T"], 61, 2⟩ (TypeCheck.type 60)
      hmeta hkind).2 (by simp)
    rw [h]
    simp [compile_pat_items, compile_pat, envT, st0, scope0]

theorem lookup_some_mem (k : String) (l : List (String × Span)) (v : Span) :
    List.lookup k l = some v → (k, v) ∈ l := by
  induction l with
  | nil => intro h; simp at h
  | cons p rest ih =>
    obtain ⟨k1, v1⟩ := p
    intro h
    simp only [List.lookup] at h
    cases hbe : k == k1 with
    | true =>
      rw [hbe] at h
      simp at h
      have hk : k = k1 := eq_of_beq hbe
      subst hk
      simp [h]
    | false =>
      rw [hbe] at h
      exact List.mem_cons_of_mem _ (ih h)

theorem lookup_none_iff_str (k : String) (l : List (String × Span)) :
    List.lookup k l = Option.none ↔ ∀ p ∈ l, p.1 ≠ k := by
  induction l with
  | nil => simp
  | cons p rest ih =>
    obtain ⟨k1, v1⟩ := p
    simp only [List.lookup]
    cases hbe : k == k1 with
    | true =>
      have hk : k = k1 := eq_of_beq hbe
      subst hk
      simp
    | false =>
      have hk : ¬ k1 = k := by
        intro hc
        subst hc
        simp at hbe
      simp [ih, hk]

theorem first_dup_from_none_iff (fields : List PatField) :
    ∀ seen, first_dup_from seen fields = Option.none ↔
      ((fields.map fun f => f.key.keyString).Nodup ∧
        ∀ f ∈ fields, ∀ p ∈ seen, p.1 ≠ f.key.keyString) := by
  induction fields with
  | nil => intro seen; simp [first_dup_from]
  | cons f rest ih =>
    intro seen
    cases hl : List.lookup f.key.keyString seen with
    | some ex =>
      have hmem : (f.key.keyString, ex) ∈ seen := lookup_some_mem _ _ _ hl
      constructor
      · intro hfd
        rw [first_dup_from, hl] at hfd
        simp at hfd
      · rintro ⟨-, hall⟩
        exact absurd rfl (hall f (by simp) (f.key.keyString, ex) hmem)
    | none =>
      have hnone : ∀ p ∈ seen, p.1 ≠ f.key.keyString :=
        (lookup_none_iff_str _ _).mp hl
      have hstep : first_dup_from seen (f :: rest) =
          first_dup_from (seen ++ [(f.key.keyString, f.span)]) rest := by
        rw [first_dup_from, hl]
      rw [hstep, ih]
      constructor
      · rintro ⟨hnd, hall⟩
        have hfn : ∀ g ∈ rest, f.key.keyString ≠ g.key.keyString := by
          intro g hg
          exact hall g hg (f.key.keyString, f.span) (by simp)
        refine ⟨?_, ?_⟩
        · simp only [List.map_cons, List.nodup_cons]
          refine ⟨?_, hnd⟩
          simp only [List.mem_map, not_exists]
          intro g
          intro hgand
          obtain ⟨hg, hgk⟩ := hgand
          exact hfn g hg hgk.symm
        · intro g hg p hp
          rcases List.mem_cons.mp hg with hgf | hgr
          · subst hgf; exact hnone p hp
          · exact hall g hgr p (List.mem_append_left _ hp)
      · rintro ⟨hnd, hall⟩
        simp only [List.map_cons, List.nodup_cons] at hnd
        obtain ⟨hnotin, hndr⟩ := hnd
        refine ⟨hndr, ?_⟩
        intro g hg p hp
        rcases List.mem_append.mp hp with hps | hpf
        · exact hall g (List.mem_cons_of_mem _ hg) p hps
        · have hpe : p = (f.key.keyString, f.span) := by simpa using hpf
          subst hpe
          intro hc
          simp only [List.mem_map, not_exists] at hnotin
          exact hnotin g ⟨hg, hc.symm⟩

theorem scan_error_of_first_dup (ospan : Span) (fields : List PatField) :
    ∀ u seen ex sp, first_dup_from seen fields = some (ex, sp) →
      scan_object_keys ospan u fields seen =
        .error (.duplicateObjectKey sp ex ospan) := by
  induction fields with
  | nil => intro u seen ex sp h; simp [first_dup_from] at h
  | cons f rest ih =>
    intro u seen ex sp h
    cases hl : List.lookup f.key.keyString seen with
    | some ex2 =>
      rw [first_dup_from, hl] at h
      simp at h
      obtain ⟨he, hs⟩ := h
      subst he; subst hs
      simp [scan_object_keys, hl]
    | none =>
      rw [first_dup_from, hl] at h
      have := ih (u.new_static_string f.key.keyString).2
        (seen ++ [(f.key.keyString, f.span)]) ex sp h
      simp [scan_object_keys, hl, this]

theorem scan_ok_of_no_dup (ospan : Span) (fields : List PatField) :
    ∀ u seen, first_dup_from seen fields = Option.none →
      ∃ slots keys u2,
        scan_object_keys ospan u fields seen = .ok (slots, keys, u2) := by
  induction fields with
  | nil => intro u seen _; exact ⟨[], [], u, by simp [scan_object_keys]⟩
  | cons f rest ih =>
    intro u seen h
    cases hl : List.lookup f.key.keyString seen with
    | some ex => rw [first_dup_from, hl] at h; simp at h
    | none =>
      rw [first_dup_from, hl] at h
      obtain ⟨slots, keys, u2, hrec⟩ := ih (u.new_static_string f.key.keyString).2
        (seen ++ [(f.key.keyString, f.span)]) h
      refine ⟨(u.new_static_string f.key.keyString).1 :: slots,
        f.key.keyString :: keys, u2, ?_⟩
      simp [scan_object_keys, hl, hrec]

theorem check_fields_of_first_missing (decl : List String) (item : Item)
    (fields : List PatField) :
    (∀ k ksp, first_missing decl fields = some (k, ksp) →
      check_object_fields decl item fields =
        .error (.litObjectNotField ksp k item))
    ∧ (first_missing decl fields = Option.none →
      check_object_fields decl item fields = .ok ()) := by
  induction fields with
  | nil =>
    constructor
    · intro k ksp h; simp [first_missing] at h
    · intro _; simp [check_object_fields]
  | cons f rest ih =>
    by_cases hc : f.key.keyString ∈ decl
    · have hcc : decl.contains f.key.keyString = true := by simpa using hc
      constructor
      · intro k ksp h
        rw [first_missing, if_pos hcc] at h
        rw [check_object_fields]
        simp only [hcc, if_true]
        exact ih.1 k ksp h
      · intro h
        rw [first_missing, if_pos hcc] at h
        rw [check_object_fields]
        simp only [hcc, if_true]
        exact ih.2 h
    · have hcc : ¬ decl.contains f.key.keyString = true := by simpa using hc
      constructor
      · intro k ksp h
        rw [first_missing, if_neg hcc] at h
        simp at h
        obtain ⟨hk, hs⟩ := h
        subst hk; subst hs
        rw [check_object_fields]
        simp [hcc]
        exact fun hmem => absurd hmem hc
      · intro h
        rw [first_missing, if_neg hcc] at h
        simp at h

theorem check_fields_error_shape (decl : List String) (item : Item) :
    ∀ (fields : List PatField) (e : CompileError),
      check_object_fields decl item fields = .error e →
      ∃ sp k, e = .litObjectNotField sp k item := by
  intro fields
  induction fields with
  | nil => intro e h; simp [check_object_fields] at h
  | cons f rest ih =>
    intro e h
    rw [check_object_fields] at h
    by_cases hc : decl.contains f.key.keyString = true
    · rw [if_pos hc] at h
      exact ih e h
    · rw [if_neg hc] at h
      simp at h
      exact ⟨f.key.span, f.key.keyString, h.symm⟩

theorem resolve_never_dup_key (env : CompEnv) (fields : List PatField)
    (ident : LitObjectIdent) (e : CompileError) :
    resolve_object_type_check env fields ident = .error e →
    ∀ a b c, e ≠ .duplicateObjectKey a b c := by
  intro h a b c
  cases ident with
  | anonymous sp => simp [resolve_object_type_check] at h
  | named path =>
    rw [resolve_object_type_check] at h
    cases hl : lookup_meta env (env.path_to_item path) with
    | none =>
      simp only [hl] at h
      simp at h
      simp [h.symm]
    | some meta =>
      simp only [hl] at h
      cases hk : meta.kind with
      | struct ty obj =>
        simp only [hk] at h
        cases hf : obj.fields with
        | none =>
          simp only [hf] at h
          simp at h
          simp [h.symm]
        | some decl =>
          simp only [hf] at h
          cases hce : check_object_fields decl obj.item fields with
          | error e2 =>
            simp only [hce] at h
            simp at h
            obtain ⟨sp2, k2, hshape⟩ :=
              check_fields_error_shape decl obj.item fields e2 hce
            subst h
            simp [hshape]
          | ok u =>
            simp only [hce] at h
            cases u
            simp at h
      | structVariant ty en obj =>
        simp only [hk] at h
        cases hf : obj.fields with
        | none =>
          simp only [hf] at h
          simp at h
          simp [h.symm]
        | some decl =>
          simp only [hf] at h
          cases hce : check_object_fields decl obj.item fields with
          | error e2 =>
            simp only [hce] at h
            simp at h
            obtain ⟨sp2, k2, hshape⟩ :=
              check_fields_error_shape decl obj.item fields e2 hce
            subst h
            simp [hshape]
          | ok u =>
            simp only [hce] at h
            cases u
            simp at h
      | tuple ty tup =>
        simp only [hk] at h
        simp at h
        simp [h.symm]
      | tupleVariant ty en tup =>
        simp only [hk] at h
        simp at h
        simp [h.symm]
      | function ty itm =>
        simp only [hk] at h
        simp at h
        simp [h.symm]
      | other itm ty =>
        simp only [hk] at h
        simp at h
        simp [h.symm]

theorem first_missing_none_iff (decl : List String) (fields : List PatField) :
    first_missing decl fields = Option.none ↔
      ∀ f ∈ fields, f.key.keyString ∈ decl := by
  induction fields with
  | nil => simp [first_missing]
  | cons f rest ih =>
    by_cases hc : f.key.keyString ∈ decl
    · have hcc : decl.contains f.key.keyString = true := by simpa using hc
      rw [first_missing, if_pos hcc, ih]
      simp [hc]
    · have hcc : ¬ decl.contains f.key.keyString = true := by simpa using hc
      rw [first_missing, if_neg hcc]
      simp [hc]

/-- C3 (amended): compile_pat_object fails with DuplicateObjectKey on its own
key scan exactly when two of its own fields resolve to the same key - the
error carries the span of the second occurrence, the span of the first
occurrence as existing, and the object span - where having no such pair is
equivalent to the field keys being pairwise distinct; when its own keys are
distinct, compilation proceeds to the type-check resolution (which never
produces DuplicateObjectKey) and the per-field sub-pattern loop, so any
remaining DuplicateObjectKey comes from a nested sub-pattern, not from this
object.  The spans are those of the whole fields; the second field is where
the error points. -/
theorem claim_C3_duplicate_object_key (env : CompEnv) (st : CSt)
    (scope : Scope) (ospan : Span) (ident : LitObjectIdent)
    (fields : List PatField) (op : Bool) (fl : Label) (load : Asm → Asm) :
    (first_dup fields = Option.none ↔
      (fields.map fun f => f.key.keyString).Nodup)
    ∧ (∀ ex sp, first_dup fields = some (ex, sp) →
      compile_pat_object env st scope ospan ident fields op fl load =
        .error (.duplicateObjectKey sp ex ospan))
    ∧ (∀ slots keys u1,
      scan_object_keys ospan st.unit fields [] = .ok (slots, keys, u1) →
      compile_pat_object env st scope ospan ident fields op fl load =
        (match resolve_object_type_check env fields ident with
         | .error e => .error e
         | .ok tc =>
           compile_object_fields env
             ⟨load st.asm ++ [(Inst.copy scope.total_var_count, ospan),
               (Inst.matchObject tc (u1.new_static_object_keys keys).1 (!op), ospan),
               (Inst.popAndJumpIfNot (scope.local_var_count + 1) fl, ospan)],
              (u1.new_static_object_keys keys).2⟩
             ⟨scope.locals, scope.local_var_count + 1, scope.total_var_count + 1⟩
             scope.total_var_count fl fields slots))
    ∧ (∀ e, resolve_object_type_check env fields ident = .error e →
      ∀ a b c, e ≠ .duplicateObjectKey a b c) := by
  refine ⟨?_, ?_, ?_, ?_⟩
  · have h := first_dup_from_none_iff fields []
    simpa [first_dup] using h
  · intro ex sp hfd
    have hscan := scan_error_of_first_dup ospan fields st.unit [] ex sp hfd
    simp [compile_pat_object, hscan, Scope.decl_anon]
  · intro slots keys u1 hscan
    simp [compile_pat_object, hscan, Scope.decl_anon]
  · exact fun e h => resolve_never_dup_key env fields ident e h

/-- C3 witness: the theorem applied to the two-field pattern repeating the
key a - the scan fails with DuplicateObjectKey pointing at the second field,
with the first field recorded as existing. -/
theorem claim_C3_duplicate_object_key_witness :
    compile_pat_object envNone st0 scope0 0 (.anonymous 0)
      [PatField.mk 1 (.ident 1 "a") Option.none,
       PatField.mk 2 (.ident 2 "a") Option.none] false 7 id =
      .error (.duplicateObjectKey 2 1 0) := by
  exact (claim_C3_duplicate_object_key envNone st0 scope0 0 (.anonymous 0)
    [PatField.mk 1 (.ident 1 "a") Option.none,
     PatField.mk 2 (.ident 2 "a") Option.none] false 7 id).2.1 1 2
    (by simp [first_dup, first_dup_from, PatField.key, PatField.span,
      LitObjectKey.keyString, List.lookup])

/-- C3 counterexample to the claim as stated: an object pattern whose own
keys are pairwise distinct (a single field a) still fails with
DuplicateObjectKey, because its sub-pattern is an object pattern with a
repeated key x - so "no DuplicateObjectKey when all keys are distinct" is
false for the outer call. -/
theorem claim_C3_duplicate_object_key_counterexample :
    compile_pat_object envNone st0 scope0 0 (.anonymous 0)
      [PatField.mk 3 (.ident 3 "a") (some (Pat.patObject 5 (.anonymous 5)
        [PatField.mk 1 (.ident 1 "x") Option.none,
         PatField.mk 2 (.ident 2 "x") Option.none] false))] false 7 id =
      .error (.duplicateObjectKey 2 1 5)
    ∧ (([PatField.mk 3 (.ident 3 "a") (some (Pat.patObject 5 (.anonymous 5)
        [PatField.mk 1 (.ident 1 "x") Option.none,
         PatField.mk 2 (.ident 2 "x") Option.none] false))].map
          fun f => f.key.keyString).Nodup) := by
  constructor
  · simp [compile_pat_object, compile_object_fields, compile_pat,
      scan_object_keys, resolve_object_type_check, Scope.decl_anon,
      UnitBuilder.new_static_string, UnitBuilder.new_static_object_keys,
      pool_index, envNone, st0, scope0, List.lookup, PatField.key,
      PatField.span, LitObjectKey.keyString]
  · simp [PatField.key, LitObjectKey.keyString]

/-- C4 (amended): for an object pattern naming a typed record - a path
resolving to a struct or struct-variant meta with a known field set - whose
own keys are pairwise distinct, compile_pat_object fails with
LitObjectNotField naming the earliest pattern key missing from the declared
field set, at the span of that key; having no missing key is equivalent to
every pattern key being declared, and in that case the typed-record check
succeeds, so any remaining LitObjectNotField comes from a nested
sub-pattern.  When the keys are not distinct the earlier duplicate-key scan
fails first, so the claim holds only under the distinctness proviso. -/
theorem claim_C4_lit_object_not_field (env : CompEnv) (st : CSt)
    (scope : Scope) (ospan : Span) (path : AstPath) (fields : List PatField)
    (op : Bool) (fl : Label) (load : Asm → Asm) (meta : CompileMeta)
    (ty : Hash) (obj : CompileMetaStruct) (decl : List String)
    (hmeta : lookup_meta env (env.path_to_item path) = some meta)
    (hkind : meta.kind = .struct ty obj ∨
      ∃ en, meta.kind = .structVariant ty en obj)
    (hfl : obj.fields = some decl) :
    (∀ k ksp, first_missing decl fields = some (k, ksp) →
      resolve_object_type_check env fields (.named path) =
        .error (.litObjectNotField ksp k obj.item))
    ∧ (first_missing decl fields = Option.none ↔
      ∀ f ∈ fields, f.key.keyString ∈ decl)
    ∧ (first_missing decl fields = Option.none →
      ∃ tc, resolve_object_type_check env fields (.named path) = .ok tc)
    ∧ (first_dup fields = Option.none →
      ∀ k ksp, first_missing decl fields = some (k, ksp) →
      compile_pat_object env st scope ospan (.named path) fields op fl load =
        .error (.litObjectNotField ksp k obj.item)) := by
  have hres : ∀ k ksp, first_missing decl fields = some (k, ksp) →
      resolve_object_type_check env fields (.named path) =
        .error (.litObjectNotField ksp k obj.item) := by
    intro k ksp hfm
    have hchk := (check_fields_of_first_missing decl obj.item fields).1 k ksp hfm
    rw [resolve_object_type_check]
    simp only [hmeta]
    rcases hkind with hk | ⟨en, hk⟩ <;> simp only [hk, hfl, hchk]
  refine ⟨hres, first_missing_none_iff decl fields, ?_, ?_⟩
  · intro hfm
    have hchk := (check_fields_of_first_missing decl obj.item fields).2 hfm
    rw [resolve_object_type_check]
    simp only [hmeta]
    rcases hkind with hk | ⟨en, hk⟩ <;> simp only [hk, hfl, hchk]
    · exact ⟨.type ty, rfl⟩
    · exact ⟨.variant ty, rfl⟩
  · intro hfd k ksp hfm
    obtain ⟨slots, keys, u1, hscan⟩ :=
      scan_ok_of_no_dup ospan fields st.unit [] hfd
    have hr := hres k ksp hfm
    simp [compile_pat_object, hscan, hr, Scope.decl_anon]

/-- C4 witness: the theorem applied to the record S with fields a and b and
the two-field pattern with keys a and c - the missing key c is reported with
its span. -/
theorem claim_C4_lit_object_not_field_witness :
    compile_pat_object envS st0 scope0 0 (.named ⟨10, ["S"]⟩)
      [PatField.mk 1 (.ident 1 "a") Option.none,
       PatField.mk 3 (.ident 3 "c") Option.none] false 7 id =
      .error (.litObjectNotField 3 "c" ["S"]) := by
  exact (claim_C4_lit_object_not_field envS st0 scope0 0 ⟨10, ["S"]⟩
    [PatField.mk 1 (.ident 1 "a") Option.none,
     PatField.mk 3 (.ident 3 "c") Option.none] false 7 id metaS 100
    ⟨["S"], some ["a", "b"]⟩ ["a", "b"]
    (by simp [lookup_meta, envS, metaS])
    (Or.inl rfl) rfl).2.2.2
    (by simp [first_dup, first_dup_from, PatField.key, PatField.span,
      LitObjectKey.keyString, List.lookup])
    "c" 3
    (by simp [first_missing, PatField.key, LitObjectKey.keyString,
      LitObjectKey.span])

/-- C4 counterexample to the claim as stated: a pattern on the record S that
both repeats the key a and names the undeclared key c fails with
DuplicateObjectKey, not LitObjectNotField, although one of its keys is not
in the field set - the duplicate-key scan runs before the field-set
check. -/
theorem claim_C4_lit_object_not_field_counterexample :
    compile_pat_object envS st0 scope0 0 (.named ⟨10, ["S"]⟩)
      [PatField.mk 1 (.ident 1 "a") Option.none,
       PatField.mk 2 (.ident 2 "a") Option.none,
       PatField.mk 3 (.ident 3 "c") Option.none] false 7 id =
      .error (.duplicateObjectKey 2 1 0)
    ∧ ("c" ∉ ["a", "b"])
    ∧ ∀ sp k itm,
      compile_pat_object envS st0 scope0 0 (.named ⟨10, ["S"]⟩)
        [PatField.mk 1 (.ident 1 "a") Option.none,
         PatField.mk 2 (.ident 2 "a") Option.none,
         PatField.mk 3 (.ident 3 "c") Option.none] false 7 id ≠
        .error (.litObjectNotField sp k itm) := by
  have heq : compile_pat_object envS st0 scope0 0 (.named ⟨10, ["S"]⟩)
      [PatField.mk 1 (.ident 1 "a") Option.none,
       PatField.mk 2 (.ident 2 "a") Option.none,
       PatField.mk 3 (.ident 3 "c") Option.none] false 7 id =
      .error (.duplicateObjectKey 2 1 0) := by
    simp [compile_pat_object, scan_object_keys, Scope.decl_anon,
      UnitBuilder.new_static_string, pool_index, envS, st0, scope0,
      List.lookup, PatField.key, PatField.span, LitObjectKey.keyString]
  refine ⟨heq, by simp, ?_⟩
  intro sp k itm
  rw [heq]
  simp

theorem ancestors_of_ne_nil (base : Item) (h : base ≠ []) :
    ancestors base = base :: ancestors base.dropLast := by
  cases base with
  | nil => exact absurd rfl h
  | cons c cs => rw [ancestors]

theorem nil_mem_ancestors (base : Item) : [] ∈ ancestors base := by
  induction base using List.reverseRecOn with
  | nil => simp [ancestors]
  | append_singleton xs x ih =>
    rw [ancestors_of_ne_nil _ (by simp)]
    simp only [List.dropLast_concat]
    exact List.mem_cons_of_mem _ ih

theorem findSome?_none_iff {α β : Type} (f : α → Option β) (l : List α) :
    l.findSome? f = Option.none ↔ ∀ a ∈ l, f a = Option.none := by
  induction l with
  | nil => simp
  | cons a rest ih =>
    cases h : f a with
    | some b => simp [List.findSome?_cons, h]
    | none => simp [List.findSome?_cons, h, ih]

theorem walk_eq_findSome_aux (query : Item → Option CompileMeta)
    (name : Item) :
    ∀ (n : Nat) (base : Item), base.length ≤ n →
      lookup_meta_walk query base name =
        (ancestors base).findSome? (fun a => query (a ++ name)) := by
  intro n
  induction n with
  | zero =>
    intro base hb
    have hbase : base = [] := List.length_eq_zero.mp (Nat.le_zero.mp hb)
    subst hbase
    cases h : query name <;>
      simp [lookup_meta_walk, ancestors, List.findSome?_cons, h]
  | succ n ih =>
    intro base hb
    cases base with
    | nil =>
      cases h : query name <;>
        simp [lookup_meta_walk, ancestors, List.findSome?_cons, h]
    | cons c cs =>
      rw [ancestors]
      cases h : query (c :: (cs ++ name)) with
      | some m =>
        simp [lookup_meta_walk, h, List.findSome?_cons]
      | none =>
        have hlen : (c :: cs).dropLast.length ≤ n := by
          simp only [List.length_dropLast, List.length_cons]
          simp only [List.length_cons] at hb
          omega
        have hrec := ih (c :: cs).dropLast hlen
        simp [lookup_meta_walk, h, List.findSome?_cons, hrec]

theorem walk_eq_findSome (query : Item → Option CompileMeta) (name : Item)
    (base : Item) :
    lookup_meta_walk query base name =
      (ancestors base).findSome? (fun a => query (a ++ name)) :=
  walk_eq_findSome_aux query name base.length base le_rfl

/-- C7: lookup_meta consults the external context first and returns its meta
whenever one exists; otherwise it walks from the current item outward,
joining the name to each successively shorter ancestor (the ancestor chain
starts at the current item and ends with the empty path), and returns the
first query hit; it returns nothing exactly when the context misses and
every ancestor, the empty one included, misses. -/
theorem claim_C7_lookup_meta_order (env : CompEnv) (name : Item) :
    (∀ m, env.ctx_meta name = some m → lookup_meta env name = some m)
    ∧ (env.ctx_meta name = Option.none →
      lookup_meta env name =
        (ancestors env.base).findSome? (fun a => env.query_meta (a ++ name)))
    ∧ ((ancestors env.base).head? = some env.base ∧ [] ∈ ancestors env.base)
    ∧ (lookup_meta env name = Option.none ↔
      env.ctx_meta name = Option.none ∧
        ∀ a ∈ ancestors env.base, env.query_meta (a ++ name) = Option.none) := by
  refine ⟨?_, ?_, ⟨?_, nil_mem_ancestors env.base⟩, ?_⟩
  · intro m h
    simp [lookup_meta, h]
  · intro h
    simp [lookup_meta, h, walk_eq_findSome]
  · cases hb : env.base with
    | nil => simp [ancestors]
    | cons c cs => rw [ancestors]; simp
  · cases hc : env.ctx_meta name with
    | some m => simp [lookup_meta, hc]
    | none =>
      simp only [lookup_meta, hc, walk_eq_findSome]
      rw [findSome?_none_iff]
      simp

/-- C7 witness: in envW, whose current item is a.b, the name x resolves to
the item a.x (the nearest enclosing module) rather than the root item x,
and the context always wins when it has a meta. -/
theorem claim_C7_lookup_meta_order_witness :
    lookup_meta envW ["x"] = some metaT
    ∧ lookup_meta envT ["T"] = some metaT := by
  constructor
  · have h := (claim_C7_lookup_meta_order envW ["x"]).2.1 rfl
    rw [h]
    simp [ancestors, List.findSome?_cons, envW]
  · exact (claim_C7_lookup_meta_order envT ["T"]).1 metaT (by simp [envT])

/-- C8: in the driver, verify_imports runs after the worker has completed -
a worker error is returned before the imports are even consulted - and
before any build entry is compiled - a verify_imports error is returned
unchanged for every possible per-entry compiler, so no entry runs.
verify_imports itself accepts exactly the imports prefix-contained in the
context or the unit; the first entry contained in neither is fatal, as
MissingModule at its recorded span and source id when one exists and as
MissingPreludeModule at source id 0 otherwise. -/
theorem claim_C8_verify_imports (contextHas unitHas : Item → Bool) :
    (∀ (e : LoadError) (imports : List ImportEntry) (queue : List BuildEntrySt)
      (compileEntry : BuildEntrySt → Except CompileError Unit),
      compile_phase (.error e) contextHas unitHas imports queue compileEntry =
        .error e)
    ∧ (∀ (imports : List ImportEntry) (e : LoadError),
      verify_imports contextHas unitHas imports = .error e →
      ∀ (queue : List BuildEntrySt)
        (compileEntry : BuildEntrySt → Except CompileError Unit),
        compile_phase (.ok ()) contextHas unitHas imports queue compileEntry =
          .error e)
    ∧ (∀ imports : List ImportEntry,
      verify_imports contextHas unitHas imports = .ok () ↔
        ∀ entry ∈ imports, (contextHas entry.item || unitHas entry.item) = true)
    ∧ (∀ (pre post : List ImportEntry) (entry : ImportEntry),
      (∀ p ∈ pre, (contextHas p.item || unitHas p.item) = true) →
      (contextHas entry.item || unitHas entry.item) = false →
      verify_imports contextHas unitHas (pre ++ entry :: post) =
        .error (match entry.span with
          | some (sp, sid) => .compileError sid (.missingModule sp entry.item)
          | Option.none => .compileError 0 (.missingPreludeModule entry.item))) := by
  refine ⟨?_, ?_, ?_, ?_⟩
  · intro e imports queue compileEntry
    simp [compile_phase, bind, Except.bind]
  · intro imports e hv queue compileEntry
    simp [compile_phase, bind, Except.bind, hv]
  · intro imports
    induction imports with
    | nil => simp [verify_imports]
    | cons entry rest ih =>
      cases hc : contextHas entry.item || unitHas entry.item with
      | true =>
        rw [verify_imports, if_pos hc, ih]
        simp only [List.mem_cons]
        constructor
        · intro hall x hx
          rcases hx with hx | hx
          · subst hx; exact hc
          · exact hall x hx
        · intro hall x hx
          exact hall x (Or.inr hx)
      | false =>
        rw [verify_imports, if_neg (by simp [hc])]
        constructor
        · intro h
          cases hs : entry.span with
          | some p => obtain ⟨sp, sid⟩ := p; rw [hs] at h; simp at h
          | none => rw [hs] at h; simp at h
        · intro hall
          exact absurd (hall entry (by simp)) (by simp [hc])
  · intro pre post entry hpre hbad
    induction pre with
    | nil =>
      rw [List.nil_append, verify_imports, if_neg (by simp [hbad])]
      cases hs : entry.span with
      | some p => obtain ⟨sp, sid⟩ := p; rfl
      | none => rfl
    | cons p prest ih =>
      have hp : (contextHas p.item || unitHas p.item) = true :=
        hpre p (by simp)
      rw [List.cons_append, verify_imports, if_pos hp]
      exact ih (fun q hq => hpre q (List.mem_cons_of_mem _ hq))

/-- C8 witness: the theorem applied to concrete imports - a verify failure
is returned for any per-entry compiler without compiling the queued entry,
and an import with a recorded span fails as MissingModule at that span. -/
theorem claim_C8_verify_imports_witness :
    compile_phase (.ok ()) (fun _ => false) (fun _ => false)
      [⟨["m"], some (4, 2)⟩] [⟨9⟩]
      (fun _ => .error (.unsupportedPattern 0)) =
      .error (.compileError 2 (.missingModule 4 ["m"]))
    ∧ verify_imports (fun _ => false) (fun _ => false)
        [⟨["m"], some (4, 2)⟩] =
      .error (.compileError 2 (.missingModule 4 ["m"])) := by
  have hv := (claim_C8_verify_imports (fun _ => false) (fun _ => false)).2.2.2
    [] [] ⟨["m"], some (4, 2)⟩ (by simp) (by simp)
  simp only [List.nil_append] at hv
  constructor
  · exact (claim_C8_verify_imports (fun _ => false) (fun _ => false)).2.1
      [⟨["m"], some (4, 2)⟩]
      (.compileError 2 (.missingModule 4 ["m"]))
      (by simpa using hv) [⟨9⟩] (fun _ => .error (.unsupportedPattern 0))
  · simpa using hv

/-- C9: when the item loop stops - the next token opens no item - parsed
item attributes with no following item fail as UnsupportedItemAttributes,
and otherwise a dangling visibility modifier fails as
UnsupportedItemVisibility; the attribute check runs first, so when both
dangle at end of file the attributes error is reported.  The concrete
instances run the whole file parse: a trailing attribute plus pub reports
the attributes error, a lone trailing pub reports the visibility error, and
an attribute followed by an item parses. -/
theorem claim_C9_dangling_attributes_visibility :
    (∀ toks sp attrs t1 vs t2,
      parse_attributes toks = (sp :: attrs, t1) →
      parse_visibility t1 = (vs, t2) →
      (∀ isp rest, t2 ≠ Tok.itemTok isp :: rest) →
      item_loop toks = .error ⟨sp, .unsupportedItemAttributes⟩)
    ∧ (∀ toks t1 sp t2,
      parse_attributes toks = ([], t1) →
      parse_visibility t1 = (some sp, t2) →
      (∀ isp rest, t2 ≠ Tok.itemTok isp :: rest) →
      item_loop toks = .error ⟨sp, .unsupportedItemVisibility⟩)
    ∧ parse_file [Tok.attr 5, Tok.pubKw 6] =
        .error ⟨5, .unsupportedItemAttributes⟩
    ∧ parse_file [Tok.pubKw 6] = .error ⟨6, .unsupportedItemVisibility⟩
    ∧ parse_file [Tok.attr 5, Tok.itemTok 8] = .ok ([], [8], []) := by
  refine ⟨?_, ?_, ?_, ?_, ?_⟩
  · intro toks sp attrs t1 vs t2 hpa hpv hni
    rcases t2 with _ | ⟨t, rest⟩
    · simp [item_loop, hpa, hpv, attributes_span]
    · cases t with
      | itemTok isp => exact absurd rfl (hni isp rest)
      | innerAttr s2 => simp [item_loop, hpa, hpv, attributes_span]
      | attr s2 => simp [item_loop, hpa, hpv, attributes_span]
      | pubKw s2 => simp [item_loop, hpa, hpv, attributes_span]
      | semi s2 => simp [item_loop, hpa, hpv, attributes_span]
  · intro toks t1 sp t2 hpa hpv hni
    rcases t2 with _ | ⟨t, rest⟩
    · simp [item_loop, hpa, hpv, attributes_span]
    · cases t with
      | itemTok isp => exact absurd rfl (hni isp rest)
      | innerAttr s2 => simp [item_loop, hpa, hpv, attributes_span]
      | attr s2 => simp [item_loop, hpa, hpv, attributes_span]
      | pubKw s2 => simp [item_loop, hpa, hpv, attributes_span]
      | semi s2 => simp [item_loop, hpa, hpv, attributes_span]
  · simp [parse_file, parse_file_attributes, item_loop, parse_attributes,
      parse_visibility, consume_semi, attributes_span]
  · simp [parse_file, parse_file_attributes, item_loop, parse_attributes,
      parse_visibility, consume_semi, attributes_span]
  · simp [parse_file, parse_file_attributes, item_loop, parse_attributes,
      parse_visibility, consume_semi, attributes_span]

/-- C9 witness: the general clauses applied to the concrete trailing-token
streams - an attribute and a pub dangling at end of file report the
attributes error, and a lone pub the visibility error. -/
theorem claim_C9_dangling_attributes_visibility_witness :
    item_loop [Tok.attr 5, Tok.pubKw 6] =
      .error ⟨5, .unsupportedItemAttributes⟩
    ∧ item_loop [Tok.pubKw 6] = .error ⟨6, .unsupportedItemVisibility⟩ := by
  constructor
  · exact (claim_C9_dangling_attributes_visibility).1 [Tok.attr 5, Tok.pubKw 6]
      5 [] [Tok.pubKw 6] (some 6) []
      (by simp [parse_attributes]) (by simp [parse_visibility])
      (fun isp rest => by simp)
  · exact (claim_C9_dangling_attributes_visibility).2.1 [Tok.pubKw 6]
      [Tok.pubKw 6] 6 []
      (by simp [parse_attributes]) (by simp [parse_visibility])
      (fun isp rest => by simp)
